import Mathlib

/-!
# Verification of wedutil against its specification

Shallow embedding of the wedutil helpers (src/wedutil/__init__.py and the
older src/wedutil.py) together with a model of the condition poller
(`util.wait`, `util.wait_until_not`, `util.local_timeout`) that the spec
describes in section 4.1.  The poller itself lives in the external
`selenic` library and is therefore modelled from the spec; every wedutil
helper is translated directly from the Python source.
-/

deriving instance DecidableEq for Except

namespace Wedutil

/-- Errors that can come out of one poll loop: either the time budget was
exhausted (`timeout`), or the polled predicate itself raised (`probe e`,
where `e` is an opaque error code standing for the Python exception). -/
inductive WaitErr
  | timeout
  | probe (e : ℕ)
deriving DecidableEq, Repr

/-- Outcome of one full poll loop: the final result (normal return or a
raised error), the elapsed time at the moment the loop exited, and the
number of times the predicate was invoked. -/
structure WaitResult where
  result : Except WaitErr Unit
  elapsed : ℚ
  polls : ℕ
deriving DecidableEq, Repr

/-- Modelled from the spec: the body of the poll loop of
`wait(predicate, timeout)` (spec section 4.1), which is implemented in the
external `selenic` library and absent from src/.  The loop repeatedly
invokes the predicate, separated by a fixed delay `interval`, so the
`k`-th poll happens at elapsed time `k * interval`; `trace k` is the value
the predicate returns at that poll (or the error it raises).  A truthy
value returns normally; an error raised by the predicate propagates at
once; otherwise, once the elapsed time exceeds `timeout`, the loop fails
with `Timeout`.  `fuel` merely bounds the recursion: `waitM` supplies
enough of it that it is never exhausted when `0 < interval`. -/
def waitGo (trace : ℕ → Except ℕ Bool) (timeout interval : ℚ) : ℕ → ℕ → WaitResult
  | 0, k => ⟨.error .timeout, (k : ℚ) * interval, k⟩
  | fuel + 1, k =>
    match trace k with
    | .error e => ⟨.error (.probe e), (k : ℚ) * interval, k + 1⟩
    | .ok b =>
      if b then ⟨.ok (), (k : ℚ) * interval, k + 1⟩
      else if timeout < (k : ℚ) * interval then ⟨.error .timeout, (k : ℚ) * interval, k + 1⟩
      else waitGo trace timeout interval fuel (k + 1)

/-- Fuel that is always sufficient for the poll loop: the loop cannot run
past the first index `k` with `timeout < k * interval`, and that index is
at most `⌊timeout / interval⌋₊ + 1`. -/
def waitFuel (timeout interval : ℚ) : ℕ := ⌊timeout / interval⌋₊ + 2

/-- Modelled from the spec: `wait(predicate, timeout)` over a predicate
that may raise (spec sections 4.1 and 7), with poll interval `interval`. -/
def waitM (trace : ℕ → Except ℕ Bool) (timeout interval : ℚ) : WaitResult :=
  waitGo trace timeout interval (waitFuel timeout interval) 0

/-- Modelled from the spec: `wait(predicate, timeout)` for a predicate
that returns a boolean and never raises. -/
def wait (pred : ℕ → Bool) (timeout interval : ℚ) : WaitResult :=
  waitM (fun k => .ok (pred k)) timeout interval

/-! ### Poll-loop equation lemmas -/

theorem waitGo_zero (trace : ℕ → Except ℕ Bool) (timeout interval : ℚ) (k : ℕ) :
    waitGo trace timeout interval 0 k = ⟨.error .timeout, (k : ℚ) * interval, k⟩ := rfl

theorem waitGo_succ_of_error (trace : ℕ → Except ℕ Bool) (timeout interval : ℚ)
    (fuel k : ℕ) (e : ℕ) (h : trace k = .error e) :
    waitGo trace timeout interval (fuel + 1) k =
      ⟨.error (.probe e), (k : ℚ) * interval, k + 1⟩ := by
  rw [waitGo, h]

theorem waitGo_succ_of_true (trace : ℕ → Except ℕ Bool) (timeout interval : ℚ)
    (fuel k : ℕ) (h : trace k = .ok true) :
    waitGo trace timeout interval (fuel + 1) k = ⟨.ok (), (k : ℚ) * interval, k + 1⟩ := by
  rw [waitGo, h]
  simp

theorem waitGo_succ_of_false_late (trace : ℕ → Except ℕ Bool) (timeout interval : ℚ)
    (fuel k : ℕ) (h : trace k = .ok false) (hlt : timeout < (k : ℚ) * interval) :
    waitGo trace timeout interval (fuel + 1) k =
      ⟨.error .timeout, (k : ℚ) * interval, k + 1⟩ := by
  rw [waitGo, h]
  simp [hlt]

theorem waitGo_succ_of_false (trace : ℕ → Except ℕ Bool) (timeout interval : ℚ)
    (fuel k : ℕ) (h : trace k = .ok false) (hle : ¬ timeout < (k : ℚ) * interval) :
    waitGo trace timeout interval (fuel + 1) k =
      waitGo trace timeout interval fuel (k + 1) := by
  rw [waitGo, h]
  simp [hle]

/-! ### Poll-loop behaviour -/

theorem waitGo_timedOut (trace : ℕ → Except ℕ Bool) (timeout interval : ℚ)
    (hfalse : ∀ j, trace j = .ok false) (hi : 0 < interval) :
    ∀ (fuel k : ℕ), timeout < ((k : ℚ) + (fuel : ℚ) - 1) * interval →
      (waitGo trace timeout interval fuel k).result = .error .timeout ∧
        timeout < (waitGo trace timeout interval fuel k).elapsed := by
  intro fuel
  induction fuel with
  | zero =>
    intro k hk
    rw [waitGo_zero]
    refine ⟨rfl, ?_⟩
    show timeout < (k : ℚ) * interval
    have h1 : ((k : ℚ) - 1) * interval ≤ (k : ℚ) * interval := by
      apply mul_le_mul_of_nonneg_right _ (le_of_lt hi)
      linarith
    have h2 : timeout < ((k : ℚ) - 1) * interval := by
      have := hk
      push_cast at this
      linarith [this]
    linarith
  | succ fuel ih =>
    intro k hk
    by_cases hlt : timeout < (k : ℚ) * interval
    · rw [waitGo_succ_of_false_late trace timeout interval fuel k (hfalse k) hlt]
      exact ⟨rfl, hlt⟩
    · rw [waitGo_succ_of_false trace timeout interval fuel k (hfalse k) hlt]
      apply ih (k + 1)
      have : ((k : ℚ) + ((fuel + 1 : ℕ) : ℚ) - 1) = (((k + 1 : ℕ) : ℚ) + (fuel : ℚ) - 1) := by
        push_cast; ring
      rw [this] at hk
      exact hk

theorem waitGo_ok_eq (trace : ℕ → Except ℕ Bool) (timeout interval : ℚ) :
    ∀ fuel k m, m < fuel → trace (k + m) = .ok true →
      (∀ j, j < m → trace (k + j) = .ok false) →
      (∀ j, j < m → ((k + j : ℕ) : ℚ) * interval ≤ timeout) →
      waitGo trace timeout interval fuel k =
        ⟨.ok (), ((k + m : ℕ) : ℚ) * interval, k + m + 1⟩ := by
  intro fuel
  induction fuel with
  | zero =>
    intro k m hm
    exact absurd hm (Nat.not_lt_zero m)
  | succ fuel ih =>
    intro k m hm htrue hfalse hbudget
    match m with
    | 0 =>
      have h0 : trace k = .ok true := by simpa using htrue
      rw [waitGo_succ_of_true trace timeout interval fuel k h0]
      simp
    | m' + 1 =>
      have h0 : trace k = .ok false := by simpa using hfalse 0 (Nat.succ_pos m')
      have hb0 : (k : ℚ) * interval ≤ timeout := by simpa using hbudget 0 (Nat.succ_pos m')
      rw [waitGo_succ_of_false trace timeout interval fuel k h0 (not_lt.mpr hb0)]
      have hrec := ih (k + 1) m' (Nat.lt_of_succ_lt_succ hm)
        (by rw [show k + 1 + m' = k + (m' + 1) by ring]; exact htrue)
        (fun j hj => by
          rw [show k + 1 + j = k + (j + 1) by ring]
          exact hfalse (j + 1) (Nat.succ_lt_succ hj))
        (fun j hj => by
          rw [show k + 1 + j = k + (j + 1) by ring]
          exact hbudget (j + 1) (Nat.succ_lt_succ hj))
      rw [hrec]
      have hidx : k + 1 + m' = k + (m' + 1) := by ring
      rw [hidx]

theorem waitGo_error_eq (trace : ℕ → Except ℕ Bool) (timeout interval : ℚ) :
    ∀ fuel k m e, m < fuel → trace (k + m) = .error e →
      (∀ j, j < m → trace (k + j) = .ok false) →
      (∀ j, j < m → ((k + j : ℕ) : ℚ) * interval ≤ timeout) →
      waitGo trace timeout interval fuel k =
        ⟨.error (.probe e), ((k + m : ℕ) : ℚ) * interval, k + m + 1⟩ := by
  intro fuel
  induction fuel with
  | zero =>
    intro k m e hm
    exact absurd hm (Nat.not_lt_zero m)
  | succ fuel ih =>
    intro k m e hm herr hfalse hbudget
    match m with
    | 0 =>
      have h0 : trace k = .error e := by simpa using herr
      rw [waitGo_succ_of_error trace timeout interval fuel k e h0]
      simp
    | m' + 1 =>
      have h0 : trace k = .ok false := by simpa using hfalse 0 (Nat.succ_pos m')
      have hb0 : (k : ℚ) * interval ≤ timeout := by simpa using hbudget 0 (Nat.succ_pos m')
      rw [waitGo_succ_of_false trace timeout interval fuel k h0 (not_lt.mpr hb0)]
      have hrec := ih (k + 1) m' e (Nat.lt_of_succ_lt_succ hm)
        (by rw [show k + 1 + m' = k + (m' + 1) by ring]; exact herr)
        (fun j hj => by
          rw [show k + 1 + j = k + (j + 1) by ring]
          exact hfalse (j + 1) (Nat.succ_lt_succ hj))
        (fun j hj => by
          rw [show k + 1 + j = k + (j + 1) by ring]
          exact hbudget (j + 1) (Nat.succ_lt_succ hj))
      rw [hrec]
      have hidx : k + 1 + m' = k + (m' + 1) := by ring
      rw [hidx]

theorem waitGo_ok_exists (trace : ℕ → Except ℕ Bool) (timeout interval : ℚ) :
    ∀ fuel k, (waitGo trace timeout interval fuel k).result = .ok () →
      ∃ m, trace (k + m) = .ok true := by
  intro fuel
  induction fuel with
  | zero =>
    intro k h
    exact absurd h (by simp [waitGo])
  | succ fuel ih =>
    intro k h
    match htr : trace k with
    | .error e =>
      rw [waitGo_succ_of_error trace timeout interval fuel k e htr] at h
      simp at h
    | .ok true => exact ⟨0, by simpa using htr⟩
    | .ok false =>
      by_cases hlt : timeout < (k : ℚ) * interval
      · rw [waitGo_succ_of_false_late trace timeout interval fuel k htr hlt] at h
        simp at h
      · rw [waitGo_succ_of_false trace timeout interval fuel k htr hlt] at h
        obtain ⟨m, hmm⟩ := ih (k + 1) h
        exact ⟨m + 1, by rw [show k + (m + 1) = k + 1 + m by ring]; exact hmm⟩

theorem waitM_ok_of_exists (pred : ℕ → Bool) (timeout interval : ℚ)
    (hi : 0 < interval)
    (hx : ∃ k, pred k = true ∧ (k : ℚ) * interval ≤ timeout) :
    (waitM (fun k => .ok (pred k)) timeout interval).result = .ok () := by
  obtain ⟨k, hk, hbud⟩ := hx
  have hex : ∃ j, pred j = true := ⟨k, hk⟩
  have hk0true : pred (Nat.find hex) = true := Nat.find_spec hex
  have hk0le : Nat.find hex ≤ k := Nat.find_min' hex hk
  have hk0bud : ((Nat.find hex : ℕ) : ℚ) * interval ≤ timeout := by
    calc ((Nat.find hex : ℕ) : ℚ) * interval ≤ (k : ℚ) * interval := by
          apply mul_le_mul_of_nonneg_right _ (le_of_lt hi)
          exact_mod_cast hk0le
      _ ≤ timeout := hbud
  have hfuel : Nat.find hex < waitFuel timeout interval := by
    have h1 : ((Nat.find hex : ℕ) : ℚ) ≤ timeout / interval :=
      (le_div_iff₀ hi).mpr hk0bud
    have h2 : Nat.find hex ≤ ⌊timeout / interval⌋₊ := Nat.le_floor h1
    unfold waitFuel
    omega
  have heq := waitGo_ok_eq (fun j => .ok (pred j)) timeout interval
    (waitFuel timeout interval) 0 (Nat.find hex) hfuel
    (by simpa using hk0true)
    (fun j hj => by
      have hne := Nat.find_min hex hj
      simp only [Bool.not_eq_true] at hne
      simp [hne])
    (fun j hj => by
      simp only [zero_add]
      calc (j : ℚ) * interval ≤ ((Nat.find hex : ℕ) : ℚ) * interval := by
            apply mul_le_mul_of_nonneg_right _ (le_of_lt hi)
            exact_mod_cast le_of_lt hj
        _ ≤ timeout := hk0bud)
  show (waitGo (fun j => .ok (pred j)) timeout interval (waitFuel timeout interval) 0).result
    = .ok ()
  rw [heq]

theorem waitM_allFalse (pred : ℕ → Bool) (timeout interval : ℚ)
    (hi : 0 < interval) (hall : ∀ k, pred k = false) :
    (waitM (fun k => .ok (pred k)) timeout interval).result = .error .timeout ∧
      timeout < (waitM (fun k => .ok (pred k)) timeout interval).elapsed := by
  have hlast : timeout < ((0 : ℚ) + ((waitFuel timeout interval : ℕ) : ℚ) - 1) * interval := by
    have h1 : timeout / interval < (⌊timeout / interval⌋₊ : ℚ) + 1 :=
      Nat.lt_floor_add_one (timeout / interval)
    have h2 : timeout < ((⌊timeout / interval⌋₊ : ℚ) + 1) * interval :=
      (div_lt_iff₀ hi).mp h1
    unfold waitFuel
    push_cast
    linarith
  exact waitGo_timedOut (fun j => .ok (pred j)) timeout interval
    (fun j => by simp only [hall j]) hi (waitFuel timeout interval) 0 hlast

/-- Claim C2: `wait(predicate, timeout)` returns normally if the predicate
returns a truthy value within the budget, and fails with `Timeout` if the
predicate never returns a truthy value; in the latter case the `Timeout`
occurs only once the elapsed time exceeds the budget (for a budget of
`0.2`, only after approximately `0.2` time units), never instantaneously. -/
theorem wait_contract (pred : ℕ → Bool) (timeout interval : ℚ)
    (hi : 0 < interval) :
    ((∃ k, pred k = true ∧ (k : ℚ) * interval ≤ timeout) →
      (wait pred timeout interval).result = .ok ()) ∧
    ((∀ k, pred k = false) →
      (wait pred timeout interval).result = .error .timeout ∧
        timeout < (wait pred timeout interval).elapsed) :=
  ⟨fun hx => waitM_ok_of_exists pred timeout interval hi hx,
   fun hall => waitM_allFalse pred timeout interval hi hall⟩

/-- Witness for `wait_contract`: the always-false predicate with budget
`1/5` and poll interval `1/10` times out, and only after more than `1/5`
time units of polling. -/
theorem wait_contract_witness :
    (wait (fun _ => false) (1/5) (1/10)).result = .error .timeout ∧
      (1/5 : ℚ) < (wait (fun _ => false) (1/5) (1/10)).elapsed :=
  (wait_contract (fun _ => false) (1/5) (1/10) (by norm_num)).2 (fun _ => rfl)

/-! ### The state the helpers touch -/

/-- The mutable configuration the wait helpers read and write: the
process-wide default wait timeout `util.timeout`, and the driver's script
timeout (set through `driver.set_script_timeout`). -/
structure UtilState where
  timeout : ℚ
  scriptTimeout : ℚ
deriving DecidableEq, Repr

/-- Modelled from the spec: `util.wait(cond)` invoked without an explicit
per-call timeout runs the poll loop under the currently configured
process-wide default (spec section 3: the wait budget resolves to the
process-wide default absent an explicit override). -/
def utilWait (trace : ℕ → Except ℕ Bool) (interval : ℚ) (s : UtilState) : WaitResult :=
  waitM trace s.timeout interval

/-- Modelled from the spec: `with util.local_timeout(v): body` — the scoped
local-timeout override, which sets the process-wide default to `v` for the
duration of `body` and restores the previous value on every exit path,
including when the block raises (spec sections 3 and 4.1).  Raised errors
are carried in the returned `WaitResult`, so the restoration applies to
both outcomes of `body` alike. -/
def localTimeout (v : ℚ) (body : UtilState → WaitResult × UtilState) (s : UtilState) :
    WaitResult × UtilState :=
  ((body { s with timeout := v }).1,
   { (body { s with timeout := v }).2 with timeout := s.timeout })

/-! ### The wait helpers of src/wedutil/__init__.py

Each helper polls one probe; the probe's successive answers are abstracted
as a trace `ℕ → Except ℕ Bool` (what the injected script reports at each
poll, or the error the remote execution raises there), and the poll
interval of the underlying loop is a parameter `interval`. -/

/-- `wait_for_editor(util, timeout=15)` from src/wedutil/__init__.py lines
194-221: save `util.timeout` into `saved_timeout`, call
`driver.set_script_timeout(timeout)`, run `util.wait(cond)` inside
`with util.local_timeout(timeout)`, then call
`driver.set_script_timeout(saved_timeout)`.  That last call is the
statement after the `with` block, so it runs only when the wait returned
normally; when the wait raises, the error propagates past it.  The Python
default for `timeout` is 15. -/
def wait_for_editor (trace : ℕ → Except ℕ Bool) (interval timeout : ℚ)
    (s : UtilState) : WaitResult × UtilState :=
  let saved_timeout := s.timeout
  let p := localTimeout timeout (fun t => (utilWait trace interval t, t))
    { s with scriptTimeout := timeout }
  match p.1.result with
  | .ok _ => (p.1, { p.2 with scriptTimeout := saved_timeout })
  | .error _ => (p.1, p.2)

/-- `wait_for_first_validation_complete(util)` from
src/wedutil/__init__.py lines 223-250: identical shape to
`wait_for_editor` with the timeout hardcoded to 15, polling the
`firstValidationComplete` probe. -/
def wait_for_first_validation_complete (trace : ℕ → Except ℕ Bool) (interval : ℚ)
    (s : UtilState) : WaitResult × UtilState :=
  let saved_timeout := s.timeout
  let p := localTimeout 15 (fun t => (utilWait trace interval t, t))
    { s with scriptTimeout := 15 }
  match p.1.result with
  | .ok _ => (p.1, { p.2 with scriptTimeout := saved_timeout })
  | .error _ => (p.1, p.2)

/-- `wait_for_validation_complete(util)` from src/wedutil/__init__.py
lines 252-273: `with util.local_timeout(5): util.wait(cond)`, with no
handling around the wait. -/
def wait_for_validation_complete (trace : ℕ → Except ℕ Bool) (interval : ℚ)
    (s : UtilState) : WaitResult × UtilState :=
  localTimeout 5 (fun t => (utilWait trace interval t, t)) s

/-- `wait_for_caret_to_be_in(util, element)` from
src/wedutil/__init__.py lines 32-43:
`util.wait(lambda driver: is_caret_in(util, element))` — a bare wait under
the ambient default timeout, with no handling around it. -/
def wait_for_caret_to_be_in (trace : ℕ → Except ℕ Bool) (interval : ℚ)
    (s : UtilState) : WaitResult × UtilState :=
  (utilWait trace interval s, s)

/-! ### Helper lemmas about the wait helpers -/

theorem waitFuel_pos (timeout interval : ℚ) : 0 < waitFuel timeout interval := by
  unfold waitFuel
  omega

theorem waitM_const_false (timeout interval : ℚ) (hi : 0 < interval) :
    (waitM (fun _ => .ok false) timeout interval).result = .error .timeout ∧
      timeout < (waitM (fun _ => .ok false) timeout interval).elapsed :=
  waitM_allFalse (fun _ => false) timeout interval hi (fun _ => rfl)

theorem waitM_first_true (trace : ℕ → Except ℕ Bool) (timeout interval : ℚ)
    (h : trace 0 = .ok true) :
    waitM trace timeout interval = ⟨.ok (), 0, 1⟩ := by
  have h0 := waitFuel_pos timeout interval
  have heq := waitGo_ok_eq trace timeout interval (waitFuel timeout interval) 0 0
    h0 (by simpa using h)
    (fun j hj => absurd hj (Nat.not_lt_zero j))
    (fun j hj => absurd hj (Nat.not_lt_zero j))
  simpa using heq

theorem wait_for_editor_fst (trace : ℕ → Except ℕ Bool) (interval timeout : ℚ)
    (s : UtilState) :
    (wait_for_editor trace interval timeout s).1 = waitM trace timeout interval := by
  rcases hres : (waitM trace timeout interval).result with e | u <;>
    simp [wait_for_editor, localTimeout, utilWait, hres]

theorem wait_for_editor_snd (trace : ℕ → Except ℕ Bool) (interval timeout : ℚ)
    (s : UtilState) :
    ((wait_for_editor trace interval timeout s).2.timeout = s.timeout) ∧
    ((wait_for_editor trace interval timeout s).1.result = .ok () →
      (wait_for_editor trace interval timeout s).2.scriptTimeout = s.timeout) ∧
    (∀ e, (wait_for_editor trace interval timeout s).1.result = .error e →
      (wait_for_editor trace interval timeout s).2.scriptTimeout = timeout) := by
  rcases hres : (waitM trace timeout interval).result with e | u <;>
    refine ⟨?_, ?_, ?_⟩ <;>
      simp [wait_for_editor, localTimeout, utilWait, hres]

theorem wait_for_first_validation_complete_eq (trace : ℕ → Except ℕ Bool)
    (interval : ℚ) (s : UtilState) :
    wait_for_first_validation_complete trace interval s =
      wait_for_editor trace interval 15 s := rfl

/-- Counterexample to claim C1 as stated: start with the default wait
timeout 30 and the driver's script timeout also 30; an editor probe that
never answers true makes the wait inside `wait_for_editor` fail with
`Timeout`, and on that exit path the helper leaves the driver's script
timeout at the overridden value 15 instead of restoring the previous
value 30 — `driver.set_script_timeout(saved_timeout)` sits after the
`with` block, not in a `finally`, so it is skipped when the wait raises. -/
theorem wait_for_editor_script_timeout_cex :
    (wait_for_editor (fun _ => .ok false) 1 15 ⟨30, 30⟩).1.result
        = .error .timeout ∧
      (wait_for_editor (fun _ => .ok false) 1 15 ⟨30, 30⟩).2.scriptTimeout ≠ 30 ∧
      (wait_for_editor (fun _ => .ok false) 1 15 ⟨30, 30⟩).2.scriptTimeout = 15 := by
  have h1 : (wait_for_editor (fun _ => .ok false) 1 15 (⟨30, 30⟩ : UtilState)).1.result
      = .error .timeout := by
    rw [wait_for_editor_fst]
    exact (waitM_const_false 15 1 (by norm_num)).1
  have h2 := (wait_for_editor_snd (fun _ => .ok false) 1 15 ⟨30, 30⟩).2.2 .timeout h1
  refine ⟨h1, ?_, h2⟩
  rw [h2]
  norm_num

/-- Claim C1 (amended): in `wait_for_editor` and
`wait_for_first_validation_complete`, the previously configured default
wait timeout is restored on every exit path — success, predicate timeout,
or unexpected failure — through the scoped override; the driver's script
timeout, however, is restored (to the saved `util.timeout`) only when the
wait returns normally, and on a raising exit path it remains at the
overridden value (the `timeout` argument, 15 by default, for
`wait_for_editor`; 15 for `wait_for_first_validation_complete`). -/
theorem wait_helpers_timeout_restoration (trace : ℕ → Except ℕ Bool)
    (interval timeout : ℚ) (s : UtilState) :
    ((wait_for_editor trace interval timeout s).2.timeout = s.timeout) ∧
    ((wait_for_editor trace interval timeout s).1.result = .ok () →
      (wait_for_editor trace interval timeout s).2.scriptTimeout = s.timeout) ∧
    (∀ e, (wait_for_editor trace interval timeout s).1.result = .error e →
      (wait_for_editor trace interval timeout s).2.scriptTimeout = timeout) ∧
    ((wait_for_first_validation_complete trace interval s).2.timeout = s.timeout) ∧
    ((wait_for_first_validation_complete trace interval s).1.result = .ok () →
      (wait_for_first_validation_complete trace interval s).2.scriptTimeout = s.timeout) ∧
    (∀ e, (wait_for_first_validation_complete trace interval s).1.result = .error e →
      (wait_for_first_validation_complete trace interval s).2.scriptTimeout = 15) := by
  obtain ⟨hE1, hE2, hE3⟩ := wait_for_editor_snd trace interval timeout s
  obtain ⟨hF1, hF2, hF3⟩ := wait_for_editor_snd trace interval 15 s
  rw [wait_for_first_validation_complete_eq]
  exact ⟨hE1, hE2, hE3, hF1, hF2, hF3⟩

/-- Witness for `wait_helpers_timeout_restoration`: with a probe that is
true at the first poll, `wait_for_editor` starting from default wait
timeout 30 and script timeout 30 restores both values. -/
theorem wait_helpers_timeout_restoration_witness :
    (wait_for_editor (fun _ => .ok true) 1 15 ⟨30, 30⟩).2.timeout = 30 ∧
      (wait_for_editor (fun _ => .ok true) 1 15 ⟨30, 30⟩).2.scriptTimeout = 30 :=
  ⟨(wait_helpers_timeout_restoration (fun _ => .ok true) 1 15 ⟨30, 30⟩).1,
   (wait_helpers_timeout_restoration (fun _ => .ok true) 1 15 ⟨30, 30⟩).2.1
     (by rw [wait_for_editor_fst, waitM_first_true (fun _ => .ok true) 15 1 rfl])⟩

/-- Claim C5: each wait helper that needs a non-default budget runs its
wait under an effective timeout established by the scoped local-timeout
override — `wait_for_editor` (with its Python default `timeout=15`) and
`wait_for_first_validation_complete` under 15, `wait_for_validation_complete`
under 5 — whatever the ambient process-wide default is; a helper without
an override (`wait_for_caret_to_be_in`) waits under the process-wide
default. -/
theorem helper_effective_timeouts (trace : ℕ → Except ℕ Bool) (interval : ℚ)
    (s : UtilState) :
    (wait_for_editor trace interval 15 s).1 = waitM trace 15 interval ∧
    (wait_for_first_validation_complete trace interval s).1 = waitM trace 15 interval ∧
    (wait_for_validation_complete trace interval s).1 = waitM trace 5 interval ∧
    (wait_for_caret_to_be_in trace interval s).1 = waitM trace s.timeout interval := by
  refine ⟨wait_for_editor_fst trace interval 15 s, ?_, rfl, rfl⟩
  rw [wait_for_first_validation_complete_eq]
  exact wait_for_editor_fst trace interval 15 s

theorem waitM_first_error (trace : ℕ → Except ℕ Bool) (timeout interval : ℚ)
    (hi : 0 < interval) (m e : ℕ)
    (herr : trace m = .error e)
    (hfalse : ∀ j, j < m → trace j = .ok false)
    (hbud : (m : ℚ) * interval ≤ timeout) :
    waitM trace timeout interval = ⟨.error (.probe e), (m : ℚ) * interval, m + 1⟩ := by
  have hfuel : m < waitFuel timeout interval := by
    have h1 : ((m : ℕ) : ℚ) ≤ timeout / interval := (le_div_iff₀ hi).mpr hbud
    have h2 : m ≤ ⌊timeout / interval⌋₊ := Nat.le_floor h1
    unfold waitFuel
    omega
  have heq := waitGo_error_eq trace timeout interval (waitFuel timeout interval) 0 m e
    hfuel (by simpa using herr)
    (fun j hj => by simpa using hfalse j hj)
    (fun j hj => by
      simp only [zero_add]
      calc (j : ℚ) * interval ≤ (m : ℚ) * interval := by
            apply mul_le_mul_of_nonneg_right _ (le_of_lt hi)
            exact_mod_cast le_of_lt hj
        _ ≤ timeout := hbud)
  simpa using heq

/-- Claim C4: for the wait helpers, all failures are surfaced to the
caller.  If the polled predicate raises at poll `m` (after `m` quiet
false polls, within the budget), `wait_for_validation_complete` (budget
5, via the scoped override) and `wait_for_caret_to_be_in` (budget = the
ambient default) finish at exactly poll `m + 1` with that probe error —
the error propagates immediately, with no retry, catch, or suppression —
and a `Timeout` raised by the poller (for a probe such as `trace2` that
never answers true) likewise propagates out of both helpers unretried. -/
theorem failures_propagate (trace trace2 : ℕ → Except ℕ Bool) (interval : ℚ)
    (s : UtilState) (m e : ℕ)
    (hi : 0 < interval)
    (herr : trace m = .error e)
    (hfalse : ∀ j, j < m → trace j = .ok false) :
    ((m : ℚ) * interval ≤ 5 →
      (wait_for_validation_complete trace interval s).1 =
        ⟨.error (.probe e), (m : ℚ) * interval, m + 1⟩) ∧
    ((m : ℚ) * interval ≤ s.timeout →
      (wait_for_caret_to_be_in trace interval s).1 =
        ⟨.error (.probe e), (m : ℚ) * interval, m + 1⟩) ∧
    ((∀ k, trace2 k = .ok false) →
      (wait_for_validation_complete trace2 interval s).1.result = .error .timeout ∧
        (wait_for_caret_to_be_in trace2 interval s).1.result = .error .timeout) := by
  refine ⟨?_, ?_, ?_⟩
  · intro hbud
    show waitM trace 5 interval = _
    exact waitM_first_error trace 5 interval hi m e herr hfalse hbud
  · intro hbud
    show waitM trace s.timeout interval = _
    exact waitM_first_error trace s.timeout interval hi m e herr hfalse hbud
  · intro hall
    have h2 : trace2 = fun _ => .ok false := funext hall
    subst h2
    exact ⟨(waitM_const_false 5 interval hi).1,
      (waitM_const_false s.timeout interval hi).1⟩

/-- Witness for `failures_propagate`: a probe that answers false once and
then raises error code 7 makes both helpers stop at the second poll with
the probe error, and an always-false probe times both out. -/
theorem failures_propagate_witness :
    (wait_for_validation_complete (fun k => if k = 0 then .ok false else .error 7)
        1 ⟨2, 2⟩).1 = ⟨.error (.probe 7), 1, 2⟩ ∧
    (wait_for_caret_to_be_in (fun k => if k = 0 then .ok false else .error 7)
        1 ⟨2, 2⟩).1 = ⟨.error (.probe 7), 1, 2⟩ ∧
    (wait_for_validation_complete (fun _ => .ok false) 1 ⟨2, 2⟩).1.result
        = .error .timeout := by
  have h := failures_propagate (fun k => if k = 0 then .ok false else .error 7)
    (fun _ => .ok false) 1 ⟨2, 2⟩ 1 7 (by norm_num) rfl
    (fun j hj => by
      have hj0 : j = 0 := by omega
      subst hj0
      rfl)
  refine ⟨?_, ?_, (h.2.2 (fun _ => rfl)).1⟩
  · have h1 := h.1 (by norm_num)
    simpa using h1
  · have h2 := h.2.1 (by norm_num)
    simpa using h2

/-! ### The wait_until_not helpers -/

/-- Modelled from the spec: `util.wait_until_not(predicate)` — the dual of
`wait`: it succeeds when the predicate becomes falsy (spec section 4.1),
polling under the process-wide default timeout. -/
def utilWaitUntilNot (pred : ℕ → Bool) (interval : ℚ) (s : UtilState) : WaitResult :=
  waitM (fun k => .ok (!(pred k))) s.timeout interval

/-- `wait_until_a_context_menu_is_not_visible(util)` from
src/wedutil/__init__.py lines 276-284: `util.wait_until_not` applied to
the presence of an element of class `wed-context-menu`; `presence k`
abstracts whether such an element is present at the `k`-th poll. -/
def wait_until_a_context_menu_is_not_visible (presence : ℕ → Bool) (interval : ℚ)
    (s : UtilState) : WaitResult :=
  utilWaitUntilNot presence interval s

/-- `wait_until_no_tooltip(util)` from src/wedutil/__init__.py lines
287-298: `util.wait_until_not` applied to the presence of an element
matching the CSS selector `body>.tooltip`; `presence k` abstracts whether
such a tooltip child of `body` is present at the `k`-th poll. -/
def wait_until_no_tooltip (presence : ℕ → Bool) (interval : ℚ)
    (s : UtilState) : WaitResult :=
  utilWaitUntilNot presence interval s

theorem utilWaitUntilNot_spec (pred : ℕ → Bool) (interval : ℚ) (s : UtilState)
    (hi : 0 < interval) :
    ((∃ k, pred k = false ∧ (k : ℚ) * interval ≤ s.timeout) →
      (utilWaitUntilNot pred interval s).result = .ok ()) ∧
    ((utilWaitUntilNot pred interval s).result = .ok () →
      ∃ k, pred k = false) ∧
    (pred 0 = false → utilWaitUntilNot pred interval s = ⟨.ok (), 0, 1⟩) := by
  refine ⟨?_, ?_, ?_⟩
  · rintro ⟨k, hk, hbud⟩
    exact waitM_ok_of_exists (fun j => !(pred j)) s.timeout interval hi
      ⟨k, by simp [hk], hbud⟩
  · intro hok
    obtain ⟨m, hm⟩ := waitGo_ok_exists (fun j => .ok (!(pred j))) s.timeout interval
      (waitFuel s.timeout interval) 0 hok
    refine ⟨0 + m, ?_⟩
    have := hm
    simp only [Except.ok.injEq] at this
    simpa using this
  · intro h0
    exact waitM_first_true (fun j => .ok (!(pred j))) s.timeout interval (by simp [h0])

/-- Claim C6: `wait_until_a_context_menu_is_not_visible` and
`wait_until_no_tooltip` succeed exactly when their element-presence
predicate becomes falsy — they return normally if the transient element
is absent at some poll within the budget, and a normal return implies the
element was absent at some poll; in particular, if the element is already
absent at the first poll, the helper returns immediately (elapsed 0,
after a single poll) without raising. -/
theorem wait_until_not_helpers (menuPresence tipPresence : ℕ → Bool)
    (interval : ℚ) (s : UtilState) (hi : 0 < interval) :
    ((∃ k, menuPresence k = false ∧ (k : ℚ) * interval ≤ s.timeout) →
      (wait_until_a_context_menu_is_not_visible menuPresence interval s).result
        = .ok ()) ∧
    ((wait_until_a_context_menu_is_not_visible menuPresence interval s).result
        = .ok () → ∃ k, menuPresence k = false) ∧
    (menuPresence 0 = false →
      wait_until_a_context_menu_is_not_visible menuPresence interval s
        = ⟨.ok (), 0, 1⟩) ∧
    ((∃ k, tipPresence k = false ∧ (k : ℚ) * interval ≤ s.timeout) →
      (wait_until_no_tooltip tipPresence interval s).result = .ok ()) ∧
    ((wait_until_no_tooltip tipPresence interval s).result = .ok () →
      ∃ k, tipPresence k = false) ∧
    (tipPresence 0 = false →
      wait_until_no_tooltip tipPresence interval s = ⟨.ok (), 0, 1⟩) := by
  obtain ⟨hM1, hM2, hM3⟩ := utilWaitUntilNot_spec menuPresence interval s hi
  obtain ⟨hT1, hT2, hT3⟩ := utilWaitUntilNot_spec tipPresence interval s hi
  exact ⟨hM1, hM2, hM3, hT1, hT2, hT3⟩

/-- Witness for `wait_until_not_helpers`: when no context menu and no
tooltip is present at the first poll, both helpers return immediately. -/
theorem wait_until_not_helpers_witness :
    wait_until_a_context_menu_is_not_visible (fun _ => false) 1 ⟨2, 2⟩
        = ⟨.ok (), 0, 1⟩ ∧
      wait_until_no_tooltip (fun _ => false) 1 ⟨2, 2⟩ = ⟨.ok (), 0, 1⟩ :=
  ⟨(wait_until_not_helpers (fun _ => false) (fun _ => false) 1 ⟨2, 2⟩
      (by norm_num)).2.2.1 rfl,
   (wait_until_not_helpers (fun _ => false) (fun _ => false) 1 ⟨2, 2⟩
      (by norm_num)).2.2.2.2.2 rfl⟩

/-! ### click_until_caret_in -/

/-- The loop body of `click_until_caret_in(util, element, target)` from
src/wedutil/__init__.py lines 46-76: `while True:` click the element,
then `if is_caret_in(util, target): break`.  `caretIn k` abstracts what
`is_caret_in` reports after the `(k+1)`-th click.  The Python loop has no
bound of any kind; `fuel` is an unrolling depth of our embedding, not of
the code: the value is the number of clicks performed if the loop exited
within `fuel` iterations, and `none` if it was still running. -/
def clickUntilCaretInGo (caretIn : ℕ → Bool) : ℕ → ℕ → Option ℕ
  | 0, _ => none
  | fuel + 1, k => if caretIn k then some (k + 1) else clickUntilCaretInGo caretIn fuel (k + 1)

/-- `click_until_caret_in` unrolled for `fuel` iterations from the start
of the loop. -/
def click_until_caret_in (caretIn : ℕ → Bool) (fuel : ℕ) : Option ℕ :=
  clickUntilCaretInGo caretIn fuel 0

theorem clickUntilCaretInGo_none (fuel k : ℕ) :
    clickUntilCaretInGo (fun _ => false) fuel k = none := by
  induction fuel generalizing k with
  | zero => rfl
  | succ fuel ih =>
    show (if false then _ else _) = none
    simpa using ih (k + 1)

theorem clickUntilCaretInGo_isSome (caretIn : ℕ → Bool) :
    ∀ fuel k, (clickUntilCaretInGo caretIn fuel k).isSome = true ↔
      ∃ m, m < fuel ∧ caretIn (k + m) = true := by
  intro fuel
  induction fuel with
  | zero =>
    intro k
    simp [clickUntilCaretInGo]
  | succ fuel ih =>
    intro k
    match hc : caretIn k with
    | true =>
      constructor
      · intro _
        exact ⟨0, Nat.succ_pos fuel, by simpa using hc⟩
      · intro _
        show (if caretIn k then some (k + 1) else _).isSome = true
        rw [hc]
        rfl
    | false =>
      have hred : clickUntilCaretInGo caretIn (fuel + 1) k =
          clickUntilCaretInGo caretIn fuel (k + 1) := by
        show (if caretIn k then _ else _) = _
        rw [hc]
        simp
      rw [hred, ih (k + 1)]
      constructor
      · rintro ⟨m, hm, hcm⟩
        exact ⟨m + 1, Nat.succ_lt_succ hm,
          by rw [show k + (m + 1) = k + 1 + m by ring]; exact hcm⟩
      · rintro ⟨m, hm, hcm⟩
        match m with
        | 0 => exact absurd (by simpa using hcm) (by simp [hc])
        | m' + 1 =>
          exact ⟨m', Nat.lt_of_succ_lt_succ hm,
            by rw [show k + 1 + m' = k + (m' + 1) by ring]; exact hcm⟩

theorem clickUntilCaretInGo_first (caretIn : ℕ → Bool) :
    ∀ fuel k n, n < fuel → caretIn (k + n) = true →
      (∀ j, j < n → caretIn (k + j) = false) →
      clickUntilCaretInGo caretIn fuel k = some (k + n + 1) := by
  intro fuel
  induction fuel with
  | zero =>
    intro k n hn
    exact absurd hn (Nat.not_lt_zero n)
  | succ fuel ih =>
    intro k n hn htrue hfalse
    match n with
    | 0 =>
      have h0 : caretIn k = true := by simpa using htrue
      show (if caretIn k then _ else _) = _
      rw [h0]
      simp
    | n' + 1 =>
      have h0 : caretIn k = false := by simpa using hfalse 0 (Nat.succ_pos n')
      have hred : clickUntilCaretInGo caretIn (fuel + 1) k =
          clickUntilCaretInGo caretIn fuel (k + 1) := by
        show (if caretIn k then _ else _) = _
        rw [h0]
        simp
      rw [hred, ih (k + 1) n' (Nat.lt_of_succ_lt_succ hn)
        (by rw [show k + 1 + n' = k + (n' + 1) by ring]; exact htrue)
        (fun j hj => by
          rw [show k + 1 + j = k + (j + 1) by ring]
          exact hfalse (j + 1) (Nat.succ_lt_succ hj))]
      congr 1
      ring

/-- Counterexample to claim C3 as stated: `click_until_caret_in` has no
time bound.  If `is_caret_in` never becomes true, the click loop never
exits: no unrolling depth whatsoever makes it terminate, because the loop
body contains no timeout check at all — it is not the case that it stops
once a bounded time budget elapses. -/
theorem click_until_caret_in_cex :
    ¬ ∃ fuel, (click_until_caret_in (fun _ => false) fuel).isSome = true := by
  rintro ⟨fuel, hf⟩
  rw [click_until_caret_in, clickUntilCaretInGo_none] at hf
  exact absurd hf (by simp)

/-- Claim C3 (amended): the helpers that poll through `util.wait` are
bounded by a time budget, but `click_until_caret_in` is not: it repeatedly
clicks and re-tests `is_caret_in` with no time bound, terminating exactly
when the caret lands in the target — the unrolled loop exits within `fuel`
iterations precisely when `is_caret_in` reports true at some iteration
below `fuel`, and when the first true report comes at iteration `n`, the
loop stops after exactly `n + 1` clicks. -/
theorem click_until_caret_in_characterization (caretIn : ℕ → Bool) (fuel n : ℕ) :
    ((click_until_caret_in caretIn fuel).isSome = true ↔
      ∃ m, m < fuel ∧ caretIn m = true) ∧
    (n < fuel → caretIn n = true → (∀ j, j < n → caretIn j = false) →
      click_until_caret_in caretIn fuel = some (n + 1)) := by
  constructor
  · rw [click_until_caret_in, clickUntilCaretInGo_isSome]
    constructor
    · rintro ⟨m, hm, hc⟩
      exact ⟨m, hm, by simpa using hc⟩
    · rintro ⟨m, hm, hc⟩
      exact ⟨m, hm, by simpa using hc⟩
  · intro hn htrue hfalse
    have h := clickUntilCaretInGo_first caretIn fuel 0 n hn
      (by simpa using htrue) (fun j hj => by simpa using hfalse j hj)
    rw [click_until_caret_in, h]
    simp

/-- Witness for `click_until_caret_in_characterization`: a caret that
lands in the target on the third click makes the loop stop after exactly
three clicks. -/
theorem click_until_caret_in_characterization_witness :
    click_until_caret_in (fun n => decide (n = 2)) 5 = some 3 := by
  have h := (click_until_caret_in_characterization (fun n => decide (n = 2)) 5 2).2
    (by norm_num) (by decide)
    (fun j hj => by
      match j, hj with
      | 0, _ => rfl
      | 1, _ => rfl)
  exact h

/-! ### Caret-position probes

The browser returns floating-point coordinates; the probes post-process
them before returning.  Coordinates are modelled as rationals.  The
repository targets Python 2.7 (setup.py classifier), where `int()`
truncates toward zero and `round()` rounds half away from zero. -/

/-- Python `int()` on a number: truncation toward zero. -/
def pyInt (q : ℚ) : ℤ := if 0 ≤ q then ⌊q⌋ else ⌈q⌉

/-- Python 2 `round()` on a number: rounding half away from zero. -/
def pyRound (q : ℚ) : ℤ := if 0 ≤ q then ⌊q + 1/2⌋ else ⌈q - 1/2⌉

/-- A `{"left": x, "top": y}` position dict. -/
structure position where
  left : ℚ
  top : ℚ
deriving DecidableEq, Repr

/-- `caret_screen_pos(driver)` from src/wedutil/__init__.py lines 79-98
(`caret_pos` in the older src/wedutil.py, lines 55-76): the injected
script returns the caret mark's `left`/`top` (`raw`); then, because
"ChromeDriver chokes on float values", `pos["left"] = int(pos["left"])`
and `pos["top"] = int(pos["top"])` before returning. -/
def caret_screen_pos (raw : position) : position :=
  { left := (pyInt raw.left : ℚ), top := (pyInt raw.top : ℚ) }

/-- `caret_selection_pos(driver)` from src/wedutil/__init__.py lines
101-124 (and src/wedutil.py lines 79-105): the injected script returns
`left` and `top + height / 2` where `height` is the caret's height
(`raw.top` is the caret top, offset by half the height to the middle);
then `pos["left"] = round(pos["left"])` and
`pos["top"] = round(pos["top"])` before returning. -/
def caret_selection_pos (raw : position) (height : ℚ) : position :=
  { left := (pyRound raw.left : ℚ), top := (pyRound (raw.top + height / 2) : ℚ) }

theorem pyInt_abs_le (q : ℚ) : |(pyInt q : ℚ)| ≤ |q| := by
  unfold pyInt
  by_cases h : 0 ≤ q
  · rw [if_pos h]
    have h0 : (0 : ℚ) ≤ (⌊q⌋ : ℚ) := by
      exact_mod_cast Int.floor_nonneg.mpr h
    rw [abs_of_nonneg h, abs_of_nonneg h0]
    exact Int.floor_le q
  · rw [if_neg h]
    push_neg at h
    have hc : (q : ℚ) ≤ (⌈q⌉ : ℚ) := Int.le_ceil q
    have h0 : (⌈q⌉ : ℚ) ≤ 0 := by
      have : ⌈q⌉ ≤ (0 : ℤ) := Int.ceil_le.mpr (by push_cast; linarith)
      exact_mod_cast this
    rw [abs_of_neg h, abs_of_nonpos h0]
    linarith

theorem pyInt_dist_lt (q : ℚ) : |q - (pyInt q : ℚ)| < 1 := by
  unfold pyInt
  by_cases h : 0 ≤ q
  · rw [if_pos h]
    have h1 : (⌊q⌋ : ℚ) ≤ q := Int.floor_le q
    have h2 : q < (⌊q⌋ : ℚ) + 1 := Int.lt_floor_add_one q
    rw [abs_of_nonneg (by linarith)]
    linarith
  · rw [if_neg h]
    have h1 : (q : ℚ) ≤ (⌈q⌉ : ℚ) := Int.le_ceil q
    have h2 : (⌈q⌉ : ℚ) < q + 1 := Int.ceil_lt_add_one q
    rw [abs_of_nonpos (by linarith)]
    linarith

theorem pyRound_dist_le (q : ℚ) : |q - (pyRound q : ℚ)| ≤ 1/2 := by
  unfold pyRound
  by_cases h : 0 ≤ q
  · rw [if_pos h]
    have h1 : (⌊q + 1/2⌋ : ℚ) ≤ q + 1/2 := Int.floor_le (q + 1/2)
    have h2 : q + 1/2 < (⌊q + 1/2⌋ : ℚ) + 1 := Int.lt_floor_add_one (q + 1/2)
    rw [abs_le]
    constructor <;> linarith
  · rw [if_neg h]
    have h1 : (q - 1/2 : ℚ) ≤ (⌈q - 1/2⌉ : ℚ) := Int.le_ceil (q - 1/2)
    have h2 : (⌈q - 1/2⌉ : ℚ) < (q - 1/2) + 1 := Int.ceil_lt_add_one (q - 1/2)
    rw [abs_le]
    constructor <;> linarith

/-- Claim C7: the caret-position probes post-process the floating-point
coordinates before returning them.  `caret_screen_pos` (`caret_pos` in
the older file) returns integer `left`/`top` values obtained by `int()`
truncation — each is within 1 of the raw value and no larger in
magnitude — while `caret_selection_pos` returns integer values obtained
by `round()` after offsetting the top coordinate by half the caret's
height — each within 1/2 of the offset value; all returned coordinates
are integers. -/
theorem caret_pos_integer_coordinates (raw : position) (height : ℚ) :
    (caret_screen_pos raw).left = (pyInt raw.left : ℚ) ∧
    (caret_screen_pos raw).top = (pyInt raw.top : ℚ) ∧
    |raw.left - (caret_screen_pos raw).left| < 1 ∧
    |raw.top - (caret_screen_pos raw).top| < 1 ∧
    |(caret_screen_pos raw).left| ≤ |raw.left| ∧
    |(caret_screen_pos raw).top| ≤ |raw.top| ∧
    (caret_selection_pos raw height).left = (pyRound raw.left : ℚ) ∧
    (caret_selection_pos raw height).top = (pyRound (raw.top + height / 2) : ℚ) ∧
    |raw.left - (caret_selection_pos raw height).left| ≤ 1/2 ∧
    |raw.top + height / 2 - (caret_selection_pos raw height).top| ≤ 1/2 ∧
    (∃ z : ℤ, (caret_screen_pos raw).left = (z : ℚ)) ∧
    (∃ z : ℤ, (caret_screen_pos raw).top = (z : ℚ)) ∧
    (∃ z : ℤ, (caret_selection_pos raw height).left = (z : ℚ)) ∧
    (∃ z : ℤ, (caret_selection_pos raw height).top = (z : ℚ)) :=
  ⟨rfl, rfl, pyInt_dist_lt raw.left, pyInt_dist_lt raw.top,
   pyInt_abs_le raw.left, pyInt_abs_le raw.top, rfl, rfl,
   pyRound_dist_le raw.left, pyRound_dist_le (raw.top + height / 2),
   ⟨pyInt raw.left, rfl⟩, ⟨pyInt raw.top, rfl⟩,
   ⟨pyRound raw.left, rfl⟩, ⟨pyRound (raw.top + height / 2), rfl⟩⟩

/-! ### The module-level OS X check of src/wedutil.py -/

/-- A parsed `distutils.version.StrictVersion`: the numeric
`(major, minor, patch)` tuple and an optional prerelease tag
(a letter and a number, e.g. `a1`). -/
structure StrictVer where
  major : ℕ
  minor : ℕ
  patch : ℕ
  pre : Option (Char × ℕ)
deriving DecidableEq, Repr

/-- Lexicographic comparison of the numeric version tuples, as
`StrictVersion.__cmp__` compares `self.version` tuples. -/
def verTupleLt (a b : StrictVer) : Bool :=
  decide (a.major < b.major) ||
    (decide (a.major = b.major) &&
      (decide (a.minor < b.minor) ||
        (decide (a.minor = b.minor) && decide (a.patch < b.patch))))

/-- `StrictVersion` prerelease comparison on equal numeric tuples: a
version with a prerelease tag precedes the same version without one, and
two tags compare lexicographically (letter, then number). -/
def preLt : Option (Char × ℕ) → Option (Char × ℕ) → Bool
  | none, _ => false
  | some _, none => true
  | some p, some q =>
    decide (p.1 < q.1) || (decide (p.1 = q.1) && decide (p.2 < q.2))

/-- `StrictVersion` strict order: numeric tuples first, prerelease tags
to break ties. -/
def strictVerLt (a b : StrictVer) : Bool :=
  verTupleLt a b ||
    (decide (a.major = b.major) && decide (a.minor = b.minor) &&
      decide (a.patch = b.patch) && preLt a.pre b.pre)

/-- `StrictVersion("2.42.1")`. -/
def v2_42_1 : StrictVer := ⟨2, 42, 1, none⟩

/-- Python truthiness of `os.environ.get("WEDUTIL_SKIP_OSX_CHECK", False)`:
`False` (falsy) when the variable is unset, else its string value, which
is truthy exactly when non-empty. -/
def envTruthy : Option String → Bool
  | none => false
  | some s => !s.isEmpty

/-- The module-level check of src/wedutil.py lines 15-18:
`if not os.environ.get("WEDUTIL_SKIP_OSX_CHECK", False) and
StrictVersion(selenium.__version__) > StrictVersion("2.42.1"): raise
Exception(...)` — `true` means importing the module raises. -/
def importRaises (env : Option String) (ver : StrictVer) : Bool :=
  !envTruthy env && strictVerLt v2_42_1 ver

theorem envTruthy_false_iff (env : Option String) :
    envTruthy env = false ↔ (env = none ∨ env = some "") := by
  match env with
  | none => simp [envTruthy]
  | some s =>
    show (!s.isEmpty) = false ↔ _
    constructor
    · intro h
      have hse : s.isEmpty = true := by
        cases hs : s.isEmpty
        · rw [hs] at h
          exact absurd h (by simp)
        · rfl
      have hs0 : s = "" := (String.isEmpty_iff s).mp hse
      exact Or.inr (by rw [hs0])
    · rintro (h | h)
      · cases h
      · have hs : s = "" := by injection h
        subst hs
        rfl

/-- Claim C8: importing the older module raises exactly when the
installed selenium version is strictly greater than 2.42.1 and
`WEDUTIL_SKIP_OSX_CHECK` is unset or falsy (unset, or set to the empty
string); otherwise — version at or below 2.42.1, or the variable set to a
non-empty value — the import succeeds.  For a release version
`x.y.z` (no prerelease tag), "greater than 2.42.1" is the lexicographic
condition spelled out below. -/
theorem import_osx_check (env : Option String) (ver : StrictVer) :
    (importRaises env ver = true ↔
      ((env = none ∨ env = some "") ∧ strictVerLt v2_42_1 ver = true)) ∧
    (ver.pre = none →
      (strictVerLt v2_42_1 ver = true ↔
        (2 < ver.major ∨ (2 = ver.major ∧
          (42 < ver.minor ∨ (42 = ver.minor ∧ 1 < ver.patch)))))) := by
  constructor
  · constructor
    · intro h
      unfold importRaises at h
      simp only [Bool.and_eq_true, Bool.not_eq_true'] at h
      exact ⟨(envTruthy_false_iff env).mp h.1, h.2⟩
    · rintro ⟨hs, hlt⟩
      have hf := (envTruthy_false_iff env).mpr hs
      unfold importRaises
      rw [hf, hlt]
      rfl
  · intro hpre
    unfold strictVerLt verTupleLt preLt v2_42_1
    rw [hpre]
    simp only [Bool.or_eq_true, Bool.and_eq_true, decide_eq_true_eq]
    constructor
    · rintro (h | h)
      · rcases h with h | ⟨h1, h2 | ⟨h3, h4⟩⟩
        · exact Or.inl h
        · exact Or.inr ⟨h1, Or.inl h2⟩
        · exact Or.inr ⟨h1, Or.inr ⟨h3, h4⟩⟩
      · simp at h
    · rintro (h | ⟨h1, h2 | ⟨h3, h4⟩⟩)
      · exact Or.inl (Or.inl h)
      · exact Or.inl (Or.inr ⟨h1, Or.inl h2⟩)
      · exact Or.inl (Or.inr ⟨h1, Or.inr ⟨h3, h4⟩⟩)

/-- Witness for `import_osx_check`: with the variable unset, selenium
2.43.0 makes the import raise and selenium 2.42.1 itself does not. -/
theorem import_osx_check_witness :
    importRaises none ⟨2, 43, 0, none⟩ = true ∧
      importRaises none ⟨2, 42, 1, none⟩ = false ∧
      importRaises (some "1") ⟨2, 43, 0, none⟩ = false := by
  refine ⟨?_, by decide, by decide⟩
  exact (import_osx_check none ⟨2, 43, 0, none⟩).1.mpr
    ⟨Or.inl rfl, by decide⟩

/-! ### paste in the older module -/

/-- A ctrl-equivalent keystroke dispatched through
`util.ctrl_equivalent_x`. -/
inductive InputEvent
  | ctrlEquivalentX (key : String)
deriving DecidableEq, Repr

/-- `paste(util)` from src/wedutil.py lines 308-323: on OS X
(`util.osx` true) it raises before dispatching anything ("this cannot
work on OS X..."); otherwise it performs `util.ctrl_equivalent_x("v")`.
The returned list records the input events dispatched, in order. -/
def paste (osx : Bool) : Except String Unit × List InputEvent :=
  if osx then
    (.error "this cannot work on OS X. OS X does not support native events and a paste event cannot be simulated to the extent needed for the test suite.", [])
  else
    (.ok (), [.ctrlEquivalentX "v"])

/-- Claim C9: in the older module, `paste` with `util.osx` true raises
before any input event is dispatched — `util.ctrl_equivalent_x` is never
invoked on that path, so no browser state changes — and with `util.osx`
false it dispatches exactly one ctrl-equivalent `"v"` keystroke and
raises nothing. -/
theorem paste_osx_behavior :
    ((paste true).1 ≠ .ok () ∧ (paste true).2 = []) ∧
      ((paste false).1 = .ok () ∧ (paste false).2 = [.ctrlEquivalentX "v"]) :=
  ⟨⟨fun h => Except.noConfusion h, rfl⟩, ⟨rfl, rfl⟩⟩

/-! ### select_text_of_element_directly -/

/-- A DOM node among an element's contents: a text node carrying its
data, or a child element. -/
inductive DomNode
  | text (data : String)
  | elem (tag : String)
deriving DecidableEq, Repr

/-- The `this.nodeType === Node.TEXT_NODE` filter predicate. -/
def isTextNode : DomNode → Bool
  | .text _ => true
  | .elem _ => false

/-- A DOM selection range `(startContainer, startOffset, endContainer,
endOffset)` as set through the caret manager. -/
structure SelRange where
  startNode : DomNode
  startOffset : ℕ
  endNode : DomNode
  endOffset : ℕ
deriving DecidableEq, Repr

/-- `select_text_of_element_directly(util, selector)` from
src/wedutil/__init__.py lines 381-405 (and src/wedutil.py lines 326-354):
the injected script filters the matched element's contents down to its
text nodes; if there is not exactly one, it throws
`"the element must have exactly one text node"`; otherwise it sets the
selection range over that text node's full contents
(`setRange(text, 0, text, text.length)`) and returns the selected text
(`range.toString()`).  `children` is the matched element's contents. -/
def select_text_of_element_directly (children : List DomNode) :
    Except String (SelRange × String) :=
  match children.filter isTextNode with
  | [.text d] => .ok (⟨.text d, 0, .text d, d.length⟩, d)
  | _ => .error "the element must have exactly one text node"

theorem filter_isTextNode_text (children : List DomNode) (x : DomNode)
    (h : children.filter isTextNode = [x]) : ∃ d, x = .text d := by
  have hx : x ∈ children.filter isTextNode := by rw [h]; exact List.mem_singleton.mpr rfl
  have := (List.mem_filter.mp hx).2
  match x with
  | .text d => exact ⟨d, rfl⟩
  | .elem t => exact absurd this (by simp [isTextNode])

theorem select_text_ok_of_singleton (children : List DomNode) (d : String)
    (hone : children.filter isTextNode = [.text d]) :
    select_text_of_element_directly children =
      .ok (⟨.text d, 0, .text d, d.length⟩, d) := by
  unfold select_text_of_element_directly
  rw [hone]

theorem select_text_error_of_ne_one (children : List DomNode)
    (hlen : (children.filter isTextNode).length ≠ 1) :
    select_text_of_element_directly children =
      .error "the element must have exactly one text node" := by
  unfold select_text_of_element_directly
  match hf : children.filter isTextNode with
  | [] => rfl
  | [.text d] => exact absurd (by rw [hf]; rfl) hlen
  | [.elem t] =>
    obtain ⟨d, hd⟩ := filter_isTextNode_text children (.elem t) hf
    exact absurd hd (by simp)
  | x :: y :: rest =>
    match x with
    | .text d => rfl
    | .elem t => rfl

/-- Claim C10: `select_text_of_element_directly` raises whenever the
matched element does not have exactly one text-node child — including
zero text nodes, not only more than one — and otherwise sets the
selection over that text node's full contents and returns its text as a
string. -/
theorem select_text_exactly_one (children : List DomNode) :
    ((children.filter isTextNode).length ≠ 1 →
      select_text_of_element_directly children =
        .error "the element must have exactly one text node") ∧
    (children.filter isTextNode = [] →
      select_text_of_element_directly children =
        .error "the element must have exactly one text node") ∧
    (∀ d, children.filter isTextNode = [.text d] →
      select_text_of_element_directly children =
        .ok (⟨.text d, 0, .text d, d.length⟩, d)) ∧
    ((∃ r, select_text_of_element_directly children = .ok r) ↔
      (children.filter isTextNode).length = 1) := by
  refine ⟨select_text_error_of_ne_one children, ?_, ?_, ?_, ?_⟩
  · intro hnil
    exact select_text_error_of_ne_one children (by rw [hnil]; simp)
  · intro d hone
    exact select_text_ok_of_singleton children d hone
  · rintro ⟨r, hr⟩
    by_contra hlen
    rw [select_text_error_of_ne_one children hlen] at hr
    exact absurd hr (by simp)
  · intro hlen
    obtain ⟨x, hx⟩ := List.length_eq_one.mp hlen
    obtain ⟨d, hd⟩ := filter_isTextNode_text children x hx
    subst hd
    exact ⟨(⟨.text d, 0, .text d, d.length⟩, d),
      select_text_ok_of_singleton children d hx⟩

/-- Witness for `select_text_exactly_one`: an element with one child
element and one text node `"abc"` selects that node in full and returns
`"abc"`; an element with no text node raises. -/
theorem select_text_exactly_one_witness :
    select_text_of_element_directly [.elem "span", .text "abc"] =
        .ok (⟨.text "abc", 0, .text "abc", 3⟩, "abc") ∧
      select_text_of_element_directly [.elem "span"] =
        .error "the element must have exactly one text node" := by
  constructor
  · have h := (select_text_exactly_one [.elem "span", .text "abc"]).2.2.1 "abc"
      (by decide)
    rw [h]
    rfl
  · exact (select_text_exactly_one [.elem "span"]).2.1 (by decide)

end Wedutil
